import Mathlib

/-!
# Verification of the socket.io-client-cpp core against its specification

This development embeds the core data model and operations of the
socket.io C++ client (packet codec, connection engine, namespace/socket
multiplexer) as executable Lean definitions, translated from
`src/internal/sio_packet.cpp`, `src/internal/sio_client_impl.cpp` and
`src/sio_socket.cpp`, and proves (or refutes) the specification claims
about them.

Modelling conventions:
* C++ `std::string` (a byte string) is modelled as `List Char`
  (abbreviation `Str`); `s[i]` at `i = s.size()` returns `'\x00'` as in
  `std::string::operator[]`.
* `message::ptr` (a possibly-null `shared_ptr<message>`) is modelled by
  the `Message` type itself, with a dedicated constructor `Message.mNone`
  for the null pointer.  Dereferencing a null pointer is undefined
  behaviour in the source; embedded functions surface it as an explicit
  crash result (`Option.none` / a `nullDeref` outcome).
* Machine integers are `Int`/`Nat` with explicit truncation
  (`% 2 ^ 32`, `% 2 ^ 64`) where the source performs a narrowing cast.
* The JSON text parser (simdjson) is a black box per the specification
  ("the JSON codec (a black-box parser/serializer is assumed)"); decode
  functions take an arbitrary `jparse : Str → Option Json` argument and
  the DOM-to-message translation `from_json` is embedded fully.
* Floating-point formatting is out of scope; a `double` message carries
  the decimal text the serializer would emit for it.
-/

set_option autoImplicit false

/-- Byte strings of the C++ source (`std::string`), as lists of characters. -/
abbrev Str := List Char

/-- `s[i]` of `std::string`: at `i = size` it returns the NUL character. -/
def charAt (s : Str) (i : Nat) : Char := s.getD i (Char.ofNat 0)

/-- `::isdigit` in the C locale. -/
def charIsDigit (c : Char) : Bool := 48 ≤ c.toNat && c.toNat ≤ 57

/-- Decimal digits of a natural number (what `std::to_string`/`operator<<` print). -/
def natChars (n : Nat) : Str := (Nat.repr n).toList

/-- Decimal form of a signed integer (what `std::to_string`/`operator<<` print). -/
def intChars (i : Int) : Str := if i < 0 then '-' :: natChars i.natAbs else natChars i.toNat

/-- Truncation of a signed 64-bit value to `int` (32-bit), two's complement. -/
def toInt32 (i : Int) : Int := (i + 2 ^ 31) % 2 ^ 32 - 2 ^ 31

/-- Conversion of a signed value to `unsigned` (32-bit), modular. -/
def toUInt32n (i : Int) : Nat := (i % 2 ^ 32).toNat

/-- `int64_t(uint64_t(v))` for a `uint64` JSON token. -/
def int64OfUInt64 (n : Nat) : Int :=
  if n % 2 ^ 64 < 2 ^ 63 then ((n % 2 ^ 64 : Nat) : Int) else ((n % 2 ^ 64 : Nat) : Int) - 2 ^ 64

mutual

/-- The `sio::message` tree (`sio_message.h`).  `mNone` stands for a null
`message::ptr`; children of arrays and objects are `message::ptr`, hence may
be `mNone`.  A `double` message carries its serialized decimal text (the
15-significant-digit form), since floating point is out of scope. -/
inductive Message where
  | mNone
  | mNull
  | mBool (b : Bool)
  | mInt (i : Int)
  | mDouble (s : Str)
  | mStr (s : Str)
  | mBinary (buf : Str)
  | mArray (xs : MsgList)
  | mObject (kvs : MsgMap)
  deriving DecidableEq

/-- `std::vector<message::ptr>` of an array message. -/
inductive MsgList where
  | nil
  | cons (hd : Message) (tl : MsgList)
  deriving DecidableEq

/-- `std::map<std::string, message::ptr>` of an object message, listed in the
map's iteration order (ascending key order, unique keys). -/
inductive MsgMap where
  | nil
  | cons (key : Str) (val : Message) (tl : MsgMap)
  deriving DecidableEq

end

mutual

/-- The simdjson DOM (`simdjson::dom::element`).  `jint` is an
`int64`-representable integer token, `juint` an integer token only
representable as `uint64`; `jdouble` carries the abstract decimal text. -/
inductive Json where
  | jint (i : Int)
  | juint (n : Nat)
  | jdouble (s : Str)
  | jstr (s : Str)
  | jbool (b : Bool)
  | jnull
  | jarr (xs : JsonItems)
  | jobj (fs : JsonFields)
  deriving DecidableEq

/-- Elements of a JSON array, in document order. -/
inductive JsonItems where
  | nil
  | cons (hd : Json) (tl : JsonItems)
  deriving DecidableEq

/-- Fields of a JSON object, in document order (duplicates possible). -/
inductive JsonFields where
  | nil
  | cons (key : Str) (val : Json) (tl : JsonFields)
  deriving DecidableEq

end

/-- `simdjson::dom::object::operator[]`: first field with the given key. -/
def jfLookup : JsonFields → Str → Option Json
  | .nil, _ => none
  | .cons k v tl, key => if k = key then some v else jfLookup tl key

/-- Byte-wise lexicographic `<` of `std::string` (used by `std::map`). -/
def strLt : Str → Str → Bool
  | [], [] => false
  | [], _ :: _ => true
  | _ :: _, [] => false
  | a :: as, b :: bs =>
    if a.toNat < b.toNat then true
    else if b.toNat < a.toNat then false
    else strLt as bs

/-- `std::map` insertion via `operator[]=`: keeps keys sorted, overwrites an
existing key. -/
def msgMapInsert : MsgMap → Str → Message → MsgMap
  | .nil, k, v => .cons k v .nil
  | .cons k0 v0 tl, k, v =>
    if strLt k k0 then .cons k v (.cons k0 v0 tl)
    else if k = k0 then .cons k v tl
    else .cons k0 v0 (msgMapInsert tl k v)

/-- `std::map::find`. -/
def msgMapFind : MsgMap → Str → Option Message
  | .nil, _ => none
  | .cons k v tl, key => if k = key then some v else msgMapFind tl key

/-- Length of a `MsgList`. -/
def MsgList.length : MsgList → Nat
  | .nil => 0
  | .cons _ tl => 1 + tl.length

/-- `vector::operator[]` on a `MsgList` (callers bound-check first). -/
def MsgList.getAt : MsgList → Nat → Message
  | .nil, _ => .mNone
  | .cons hd _, 0 => hd
  | .cons _ tl, n + 1 => tl.getAt n

/-! ## `from_json` (`sio_packet.cpp`, lines 150-214)

Translation of `message::ptr from_json(simdjson::dom::element const&,
vector<shared_ptr<const string>> const& buffers)`.  The C++ returns a null
`message::ptr` (our `Message.mNone`) for a placeholder with a missing,
non-integer or out-of-range `num`.  `int num = int(int64_t(num_elem))` is a
narrowing cast, hence `toInt32`. -/

mutual

def fromJson (bufs : List Str) : Json → Message
  | .jint i => .mInt i
  | .juint n => .mInt (int64OfUInt64 n)
  | .jdouble s => .mDouble s
  | .jstr s => .mStr s
  | .jarr xs => .mArray (fromJsonItems bufs xs)
  | .jobj fs =>
    match jfLookup fs "_placeholder".toList with
    | some (.jbool true) =>
      match jfLookup fs "num".toList with
      | some (.jint i) =>
        let num := toInt32 i
        if 0 ≤ num ∧ num < (bufs.length : Int) then .mBinary (bufs.getD num.toNat [])
        else .mNone
      | _ => .mNone
    | _ => .mObject (fromJsonFields bufs fs .nil)
  | .jbool b => .mBool b
  | .jnull => .mNull

def fromJsonItems (bufs : List Str) : JsonItems → MsgList
  | .nil => .nil
  | .cons hd tl => .cons (fromJson bufs hd) (fromJsonItems bufs tl)

/-- The field loop of the object case, inserting fields in document order
(a duplicate key overwrites the earlier entry, as `map[key] = …` does). -/
def fromJsonFields (bufs : List Str) : JsonFields → MsgMap → MsgMap
  | .nil, acc => acc
  | .cons k v tl, acc => fromJsonFields bufs tl (msgMapInsert acc k (fromJson bufs v))

end

/-! ## `client_impl::next_delay` (`sio_client_impl.cpp`, lines 445-464)

```cpp
unsigned delay = m_reconn_delay;
unsigned attempts = m_reconn_made;
while (attempts-- > 0 && delay < m_reconn_delay_max) {
    if (delay > m_reconn_delay_max / 2) { delay = m_reconn_delay_max; break; }
    delay *= 2;
}
return delay;
```

`delay *= 2` runs only when `delay ≤ max / 2 < 2^31`, so the unsigned
multiplication never wraps and plain `Nat` arithmetic is exact. -/

def nextDelayLoop (reconnDelayMax : Nat) : Nat → Nat → Nat
  | 0, delay => delay
  | attempts + 1, delay =>
    if delay < reconnDelayMax then
      if delay > reconnDelayMax / 2 then reconnDelayMax
      else nextDelayLoop reconnDelayMax attempts (delay * 2)
    else delay

/-- `client_impl::next_delay`, as a function of the fields it reads
(`m_reconn_delay`, `m_reconn_delay_max`, `m_reconn_made`). -/
def next_delay (reconnDelay reconnDelayMax reconnMade : Nat) : Nat :=
  nextDelayLoop reconnDelayMax reconnMade reconnDelay

/-! ## `client_impl::socket` (`sio_client_impl.cpp`, lines 141-171) -/

/-- The namespace normalization performed at the top of
`client_impl::socket`: `""` becomes `"/"`, a name not starting with `'/'`
gets `'/'` prepended, a name starting with `'/'` is used as-is. -/
def normalizeNsp : Str → Str
  | [] => ['/']
  | c :: cs => if c ≠ '/' then '/' :: c :: cs else c :: cs

/-- The engine's socket map (`m_sockets`) with its handle allocator.  Socket
handles are abstracted to allocation numbers; `std::map` lookup is modelled
by association-list lookup on the normalized key. -/
structure SocketMapState where
  sockets : List (Str × Nat)
  nextId : Nat
  deriving DecidableEq

/-- `client_impl::socket(nsp)`: normalize, return the existing socket for the
normalized name if present, otherwise insert (and hand out) a fresh one. -/
def clientSocket (st : SocketMapState) (nsp : Str) : SocketMapState × Nat :=
  let aux := normalizeNsp nsp
  match st.sockets.lookup aux with
  | some h => (st, h)
  | none => (⟨(aux, st.nextId) :: st.sockets, st.nextId + 1⟩, st.nextId)

/-! ## Message accessors (`sio_message.h`)

`sio_message.h` is not among the provided sources; per the specification
these accessors are total. -/

/-- Modelled from the spec: `sio_message.h` is missing from the sources;
§4.A says "Accessors are total: requesting the wrong variant returns a typed
null/zero fallback".  `get_string` on a non-string message returns the empty
string.  (On a null `message::ptr` the call site itself dereferences null,
which callers surface separately.) -/
def msgGetString : Message → Str
  | .mStr s => s
  | _ => []

/-- Modelled from the spec (see `msgGetString`): `get_int` with the zero
fallback on a wrong variant. -/
def msgGetInt : Message → Int
  | .mInt i => i
  | _ => 0

/-! ## `client_impl::on_handshake` / `client_impl::on_open`
(`sio_client_impl.cpp`, lines 653-700 and 536-560) -/

/-- The engine connection state (`con_state` in the missing
`sio_client_impl.h`; values per the spec's state machine and their use in
`sio_client_impl.cpp`). -/
inductive ConState where
  | opening
  | opened
  | closing
  | closed
  deriving DecidableEq

/-- The `client_impl` fields read or written by `on_handshake` and
`on_open`. -/
structure ClientState where
  sid : Str
  pingInterval : Nat
  pingTimeout : Nat
  reconnMade : Nat
  conState : ConState
  deriving DecidableEq

/-- WebSocket close status codes used by the engine
(`websocketpp::close::status`). -/
inductive CloseCode where
  | normal
  | goingAway
  | policyViolation
  | abnormalClose
  deriving DecidableEq

/-- What `on_handshake` does besides mutating fields. -/
inductive HsAct where
  /-- success: ping-timeout timer armed, counter reset, return -/
  | ok
  /-- the `failed:` label: dispatch `close_impl(policy_violation, "Handshake error")` -/
  | closeTransport (code : CloseCode) (reason : Str)
  /-- dereference of a null `message::ptr` (undefined behaviour) -/
  | nullDeref
  deriving DecidableEq

/-- `client_impl::on_handshake(message::ptr const&)`.  The `pingInterval` /
`pingTimeout` extraction takes the field when present with integer flag and
substitutes 25000 / 60000 otherwise; `(unsigned)` casts are modular.  A null
value under a present key is dereferenced by the source
(`it->second->get_flag()`), surfaced as `HsAct.nullDeref`. -/
def on_handshake (msg : Message) (st : ClientState) : ClientState × HsAct :=
  match msg with
  | .mObject kvs =>
    match msgMapFind kvs "sid".toList with
    | none => (st, .closeTransport .policyViolation "Handshake error".toList)
    | some .mNone => (st, .nullDeref)
    | some sidv =>
      let sid := msgGetString sidv
      match msgMapFind kvs "pingInterval".toList with
      | some .mNone => (st, .nullDeref)
      | piv =>
        let pingInterval := match piv with
          | some (.mInt i) => toUInt32n i
          | _ => 25000
        match msgMapFind kvs "pingTimeout".toList with
        | some .mNone => (st, .nullDeref)
        | ptv =>
          let pingTimeout := match ptv with
            | some (.mInt i) => toUInt32n i
            | _ => 60000
          ({ st with sid := sid, pingInterval := pingInterval,
                     pingTimeout := pingTimeout, reconnMade := 0 }, .ok)
  | _ => (st, .closeTransport .policyViolation "Handshake error".toList)

/-- What `on_open` does besides mutating fields. -/
inductive OpenAct where
  /-- transport opened while closing: `close()` and return -/
  | closeCalled
  /-- normal path: notify state change, `sockets_invoke_void(on_open)`, open listener -/
  | openedNotify
  deriving DecidableEq

/-- `client_impl::on_open(connection_hdl)`, restricted to the engine fields of
`ClientState`.  It stores `con_opened` and notifies; the reconnection counter
is deliberately not touched ("Do not reset reconnection counter here"). -/
def on_open (st : ClientState) : ClientState × OpenAct :=
  if st.conState = .closing then (st, .closeCalled)
  else ({ st with conState := .opened }, .openedNotify)

/-! ## The outstanding-ack table under the timeout emit
(`sio_socket.cpp`, lines 300-357 and 568-595)

The timer handler and `on_socketio_ack` both take `m_event_mutex`, so their
executions are serialized; a run is a sequence of the two events.  The model
tracks, for one `pack_id` registered by the timeout overload of `emit` (both
`ack_cb` and `timeout_cb` provided), whether the `m_acks` and `m_ack_timers`
entries are present and how often each callback has been invoked. -/

structure AckTableState where
  ackPresent : Bool
  timerPresent : Bool
  ackCalls : Nat
  timeoutCalls : Nat
  deriving DecidableEq

/-- State after `emit` registered `ack` and the timer (lines 345-349). -/
def ackInit : AckTableState :=
  { ackPresent := true, timerPresent := true, ackCalls := 0, timeoutCalls := 0 }

/-- The timer lambda of the timeout `emit` overload, in the `!ec` case: under
the mutex it removes the `m_acks` entry (remembering whether it was present)
and the `m_ack_timers` entry, then invokes `timeout_callback` only if the ack
was still pending. -/
def ackTimeoutFire (st : AckTableState) : AckTableState :=
  { ackPresent := false, timerPresent := false,
    ackCalls := st.ackCalls,
    timeoutCalls := st.timeoutCalls + (if st.ackPresent then 1 else 0) }

/-- `socket::impl::on_socketio_ack`: under the mutex it removes the `m_acks`
entry (remembering it) and the `m_ack_timers` entry, cancels the timer, and
invokes the stored ack callback only if the entry was found. -/
def ackArrive (st : AckTableState) : AckTableState :=
  { ackPresent := false, timerPresent := false,
    ackCalls := st.ackCalls + (if st.ackPresent then 1 else 0),
    timeoutCalls := st.timeoutCalls }

/-- The two events that can touch the entry after registration. -/
inductive AckEvent where
  | timerFire
  | serverAck
  deriving DecidableEq

def ackStep (st : AckTableState) : AckEvent → AckTableState
  | .timerFire => ackTimeoutFire st
  | .serverAck => ackArrive st

def ackRun (evs : List AckEvent) : AckTableState := evs.foldl ackStep ackInit

/-! ## The pre-connect packet queue
(`sio_socket.cpp`: `send_packet` lines 616-646, `on_connected` lines 386-415)

`wire` records the packets handed to `m_client->send`, in order. -/

structure NsSendState (α : Type) where
  connected : Bool
  packetQueue : List α
  wire : List α
  deriving DecidableEq

/-- `socket::impl::send_packet`: when connected, drain the queue to the wire
first, then send the new packet; when not connected, append to the queue. -/
def sendPacket {α : Type} (st : NsSendState α) (p : α) : NsSendState α :=
  if st.connected then
    { connected := true, packetQueue := [],
      wire := st.wire ++ st.packetQueue ++ [p] }
  else
    { st with packetQueue := st.packetQueue ++ [p] }

/-- The queue part of `socket::impl::on_connected` (run on receipt of the
namespace's CONNECT response): if not yet connected, set `m_connected`,
extract all queued packets FIFO and send them. -/
def onConnectedFlush {α : Type} (st : NsSendState α) : NsSendState α :=
  if st.connected then st
  else { connected := true, packetQueue := [], wire := st.wire ++ st.packetQueue }

/-- A socket that has not yet received its CONNECT response, with no queued
packets. -/
def nsInit {α : Type} : NsSendState α :=
  { connected := false, packetQueue := [], wire := [] }

/-! ## Events and the auto-ack registration
(`sio_socket.cpp`: `event` methods lines 45-104, `socket::on_with_ack`
lines 715-750, event creation in `on_socketio_event` lines 540-543) -/

/-- The `sio::event` fields (`sio_socket.h`). `messages` and `ackMessage` are
`message::list`, i.e. vectors of `message::ptr`. -/
structure SEvent where
  nsp : Str
  name : Str
  messages : List Message
  needAck : Bool
  ackMessage : List Message
  deriving DecidableEq

/-- `event::get_message()`: the first element, or a null ptr if empty. -/
def eventGetMessage (ev : SEvent) : Message := ev.messages.headD .mNone

/-- `event::put_ack_message`: stores the list only if the event needs an
ack. -/
def putAckMessage (ev : SEvent) (l : List Message) : SEvent :=
  if ev.needAck then { ev with ackMessage := l } else ev

/-- Event construction in `on_socketio_event`:
`bool needAck = msgId >= 0;` and an empty ack message. -/
def createEvent (nsp name : Str) (messages : List Message) (msgId : Int) : SEvent :=
  { nsp := nsp, name := name, messages := messages,
    needAck := decide (0 ≤ msgId), ackMessage := [] }

/-- The wrapper that `socket::on_with_ack(event_handler_with_ack)` installs.
The user handler mutates an initially empty `ack_msg` given
`ev.get_message()`; it is modelled as the function from that message to the
final list.  The wrapper stores the list iff the event needs an ack and the
list is non-empty. -/
def onWithAckWrapper (handler : Message → List Message) (ev : SEvent) : SEvent :=
  let ackMsg := handler (eventGetMessage ev)
  if ev.needAck && decide (0 < ackMsg.length) then putAckMessage ev ackMsg else ev

/-- The adapter `socket::on_with_ack(simple_event_handler)` builds: the old
bool-returning handler (which may throw, modelled by `Except`) is converted
to a handler pushing a single boolean, `false` when it threw. -/
def simpleHandlerAdapter (h : Message → Except Unit Bool) : Message → List Message :=
  fun msg =>
    let success := match h msg with
      | .ok b => b
      | .error _ => false
    [Message.mBool success]

/-! ## The packet type (`sio_packet.h` constants and fields)

`sio_packet.h` is not among the provided sources.  The numeric values are
modelled from the spec's wire grammar (§4.B.1: frame digit `'0'..'6'` with
`4 = MESSAGE`; type digit `0 = CONNECT, 1 = DISCONNECT, 2 = EVENT, 3 = ACK,
4 = CONNECT_ERROR, 5 = BINARY_EVENT, 6 = BINARY_ACK`); `type_undetermined`
is the out-of-band flag bit `0x10` or-ed onto the sub-type by the emit
constructor and cleared by `accept` (`_type & ~type_undetermined`). -/

def typeUndetermined : Int := 16

/-- The `sio::packet` fields.  `frame` and `ptype` are kept as raw integers
because `parse` stores unvalidated casts into them; `packId = -1` means no
ack id; `message = .mNone` is the null payload pointer. -/
structure RawPacket where
  frame : Int
  ptype : Int
  nsp : Str
  packId : Int
  message : Message
  pending : Nat
  buffers : List Str
  deriving DecidableEq

/-- `packet::packet(string const& nsp, message::ptr const& msg, int pack_id,
bool isAck)`: the outgoing EVENT/ACK constructor,
`_type = (isAck ? type_ack : type_event) | type_undetermined`. -/
def packetOfEmit (nsp : Str) (msg : Message) (packId : Int) (isAck : Bool) : RawPacket :=
  { frame := 4, ptype := Int.lor (if isAck then 3 else 2) typeUndetermined,
    nsp := nsp, packId := packId, message := msg, pending := 0, buffers := [] }

/-- `packet::packet(type type, string const& nsp, message::ptr const& msg)`. -/
def packetOfType (t : Int) (nsp : Str) (msg : Message) : RawPacket :=
  { frame := 4, ptype := t, nsp := nsp, packId := -1, message := msg,
    pending := 0, buffers := [] }

/-! ## Encoding (`sio_packet.cpp`: `escape_json_string` lines 25-48,
`accept_*_message` lines 50-147, `packet::accept` lines 371-424,
`packet_manager::encode` lines 467-492) -/

def hexDigit (n : Nat) : Char := if n < 10 then Char.ofNat (48 + n) else Char.ofNat (87 + n)

/-- One character of `escape_json_string`.  In the source `char` is signed,
so bytes ≥ 0x80 fail `c >= 0` and pass through raw, exactly as codepoints
≥ 32 do here. -/
def escapeChar (c : Char) : Str :=
  if c = '"' then ['\\', '"']
  else if c = '\\' then ['\\', '\\']
  else if c = '\x08' then ['\\', 'b']
  else if c = '\x0c' then ['\\', 'f']
  else if c = '\n' then ['\\', 'n']
  else if c = '\r' then ['\\', 'r']
  else if c = '\t' then ['\\', 't']
  else if c.toNat < 32 then
    ['\\', 'u', '0', '0', hexDigit (c.toNat / 16), hexDigit (c.toNat % 16)]
  else [c]

def escapeJsonString (s : Str) : Str := s.flatMap escapeChar

/-- The placeholder object text written by `accept_binary_message`:
`{"_placeholder":true,"num":<n>}`. -/
def placeholderChars (n : Nat) : Str :=
  '{' :: '"' :: "_placeholder".toList ++ '"' :: ':' :: "true".toList
    ++ ',' :: '"' :: "num".toList ++ '"' :: ':' :: natChars n ++ ['}']

mutual

/-- `accept_message` and its per-variant helpers: append the JSON text of
the message to `js` and collect binary buffers (emitting a placeholder and
appending the buffer, in traversal order).  A null child pointer would be
dereferenced by the source (`*(*it)` / `*(it->second)`), surfaced as
`none`. -/
def acceptMessage : Message → Str → List Str → Option (Str × List Str)
  | .mNone, _, _ => none
  | .mInt i, js, bufs => some (js ++ intChars i, bufs)
  | .mDouble s, js, bufs => some (js ++ s, bufs)
  | .mStr s, js, bufs => some (js ++ '"' :: escapeJsonString s ++ ['"'], bufs)
  | .mBool b, js, bufs => some (js ++ (if b then "true".toList else "false".toList), bufs)
  | .mNull, js, bufs => some (js ++ "null".toList, bufs)
  | .mBinary buf, js, bufs => some (js ++ placeholderChars bufs.length, bufs ++ [buf])
  | .mArray xs, js, bufs =>
    match acceptItems xs true (js ++ ['[']) bufs with
    | some (js1, bufs1) => some (js1 ++ [']'], bufs1)
    | none => none
  | .mObject kvs, js, bufs =>
    match acceptFields kvs true (js ++ ['{']) bufs with
    | some (js1, bufs1) => some (js1 ++ ['}'], bufs1)
    | none => none

/-- The element loop of `accept_array_message` (comma before every element
but the first). -/
def acceptItems : MsgList → Bool → Str → List Str → Option (Str × List Str)
  | .nil, _, js, bufs => some (js, bufs)
  | .cons hd tl, first, js, bufs =>
    match acceptMessage hd (if first then js else js ++ [',']) bufs with
    | some (js1, bufs1) => acceptItems tl false js1 bufs1
    | none => none

/-- The field loop of `accept_object_message`
(`"<escaped key>":<value>` entries). -/
def acceptFields : MsgMap → Bool → Str → List Str → Option (Str × List Str)
  | .nil, _, js, bufs => some (js, bufs)
  | .cons k v tl, first, js, bufs =>
    match acceptMessage v
        ((if first then js else js ++ [',']) ++ '"' :: escapeJsonString k ++ ['"', ':']) bufs with
    | some (js1, bufs1) => acceptFields tl false js1 bufs1
    | none => none

end

/-- `packet::accept(string& payload_ptr, vector<...>& buffers)`.  Returns the
text payload, the collected buffers, the packet with its sub-type upgraded,
and the `hasBinary` return value; `none` when the traversal dereferences a
null child pointer. -/
def packetAccept (p : RawPacket) : Option (Str × List Str × RawPacket × Bool) :=
  let frameChar := Char.ofNat ((p.frame + 48).toNat % 256)
  if p.frame ≠ 4 then some ([frameChar], [], p, false)
  else
    let ser : Option (Str × List Str × Bool) :=
      if p.message = .mNone then some ([], [], false)
      else
        match acceptMessage p.message [] [] with
        | some (js, bufs) => some (js, bufs, true)
        | none => none
    match ser with
    | none => none
    | some (js, bufs, hasMessage) =>
      let hasBinary := decide (bufs.length > 0)
      let t0 := Int.land p.ptype (-17)
      let t1 := if t0 = 2 then (if hasBinary then 5 else 2)
                else if t0 = 3 then (if hasBinary then 6 else 3)
                else t0
      let ss := intChars t1
        ++ (if hasBinary then natChars bufs.length ++ ['-'] else [])
        ++ (if p.nsp ≠ [] ∧ p.nsp ≠ ['/'] then
              p.nsp ++ (if hasMessage = true ∨ 0 ≤ p.packId then [','] else [])
            else [])
        ++ (if 0 ≤ p.packId then intChars p.packId else [])
      some (frameChar :: ss ++ (if hasMessage then js else []),
            bufs, { p with ptype := t1 }, hasBinary)

/-- `packet_manager::encode`: run `accept`; deliver the text frame to the
encode callback first and, when `accept` returned `true`, each collected
binary buffer afterwards in order.  Frames are tagged with the `isBinary`
flag passed to the callback. -/
def managerEncode (p : RawPacket) : Option (List (Bool × Str) × RawPacket) :=
  match packetAccept p with
  | none => none
  | some (payload, bufs, p1, hasBinary) =>
    if hasBinary then some ((false, payload) :: bufs.map (fun b => (true, b)), p1)
    else some ([(false, payload)], p1)

/-! ## Decoding (`sio_packet.cpp`: `is_*_message` lines 252-265,
`packet::parse` lines 291-369, `packet::parse_buffer` lines 267-289,
`packet_manager::put_payload` lines 494-526) -/

/-- `packet::is_binary_message`: first byte is the raw value
`frame_message = 4`. -/
def isBinaryMessage (payload : Str) : Bool :=
  payload.length > 0 && charAt payload 0 = Char.ofNat 4

/-- `packet::is_text_message`: first byte is `frame_message + '0' = '4'`. -/
def isTextMessage (payload : Str) : Bool :=
  payload.length > 0 && charAt payload 0 = '4'

/-- `string::find_first_of(set, start)`: index of the first character from
`cs` at position ≥ `start`, `none` for `npos`. -/
def findAnyAux (cs : List Char) : List Char → Nat → Option Nat
  | [], _ => none
  | c :: rest, i => if c ∈ cs then some i else findAnyAux cs rest (i + 1)

def findAnyFrom (s : Str) (cs : List Char) (start : Nat) : Option Nat :=
  findAnyAux cs (s.drop start) start

/-- Value of a run of decimal digits. -/
def digitsVal (ds : Str) : Nat := ds.foldl (fun a c => a * 10 + (c.toNat - 48)) 0

def isSpaceC (c : Char) : Bool := c = ' ' || (9 ≤ c.toNat && c.toNat ≤ 13)

/-- `std::stoul` on a 64-bit `unsigned long`: skip C-locale whitespace, an
optional sign (`'-'` negates modulo 2⁶⁴), then require at least one digit;
`none` models the thrown `invalid_argument` / `out_of_range`. -/
def stoulModel (s : Str) : Option Nat :=
  let s1 := s.dropWhile isSpaceC
  let signed : Bool × Str :=
    match s1 with
    | '-' :: r => (true, r)
    | '+' :: r => (false, r)
    | r => (false, r)
  let ds := signed.2.takeWhile charIsDigit
  if ds = [] then none
  else
    let v := digitsVal ds
    if v ≥ 2 ^ 64 then none
    else some (if signed.1 then (2 ^ 64 - v) % 2 ^ 64 else v)

/-- `std::stoi` on an all-digit string (the caller guarded with
`all_of(::isdigit)`): `none` models the `out_of_range` throw beyond
`INT_MAX`. -/
def stoiModel (ds : Str) : Option Int :=
  let v := digitsVal ds
  if v > 2 ^ 31 - 1 then none else some (v : Int)

/-- A freshly constructed `packet()` as `parse` has initialized it so far:
`_message.reset(); _pack_id = -1; _buffers.clear(); _pending_buffers = 0;`
with `_nsp` still the default-constructed empty string. -/
def parseBase (frame t : Int) (pending : Nat) : RawPacket :=
  { frame := frame, ptype := t, nsp := [], packId := -1, message := .mNone,
    pending := pending, buffers := [] }

/-- The pack-id scan of `packet::parse` (lines 342-351): when characters lie
between `pos` and `json_pos`, an all-digit run becomes the ack id
(`std::stoi`, whose `out_of_range` throw is `.error`), anything else leaves
`_pack_id = -1`. -/
def parsePackId (payload : Str) (pos jsonPos : Nat) : Except Unit Int :=
  if pos < jsonPos then
    let packIdStr := (payload.drop pos).take (jsonPos - pos)
    if packIdStr.all charIsDigit then
      match stoiModel packIdStr with
      | none => .error ()
      | some v => .ok v
    else .ok (-1)
  else .ok (-1)

/-- The tail of `packet::parse` from the pack-id scan (line 342) on: a
binary-typed MESSAGE stores the JSON text as its first buffer and returns
`true` (wait for binaries), anything else parses the JSON (black-box
`jparse`, then `from_json` with no buffers) and returns `false`
(deliver). -/
def parseTail (jparse : Str → Option Json) (payload : Str) (base : RawPacket)
    (nsp : Str) (pos jsonPos : Nat) : Except Unit (Bool × RawPacket) :=
  match parsePackId payload pos jsonPos with
  | .error _ => .error ()
  | .ok packId =>
    if base.frame = 4 ∧ (base.ptype = 5 ∨ base.ptype = 6) then
      .ok (true, { base with nsp := nsp, packId := packId,
                             buffers := [payload.drop jsonPos] })
    else
      let message := match jparse (payload.drop jsonPos) with
        | some j => fromJson [] j
        | none => .mNone
      .ok (false, { base with nsp := nsp, packId := packId, message := message })

/-- The message scan after an explicit namespace (lines 330-336): find the
start of the JSON part from the character after the comma; if there is none,
the packet ends with the namespace (and no ack id is assumed). -/
def parseAfterNsp (jparse : Str → Option Json) (payload : Str) (base : RawPacket)
    (nsp : Str) (pos2 : Nat) : Except Unit (Bool × RawPacket) :=
  match findAnyFrom payload ['"', '[', '{'] pos2 with
  | none => .ok (false, { base with nsp := nsp })
  | some jsonPos => parseTail jparse payload base nsp pos2 jsonPos

/-- `packet::parse` from the namespace scan (line 314) on. -/
def parseNsp (jparse : Str → Option Json) (payload : Str) (base : RawPacket)
    (pos : Nat) : Except Unit (Bool × RawPacket) :=
  match findAnyFrom payload ['{', '[', '"', '/'] pos with
  | none => .ok (false, { base with nsp := ['/'] })
  | some nspJsonPos =>
    if charAt payload nspJsonPos = '/' then
      match findAnyFrom payload [','] 0 with
      | none => .ok (false, { base with nsp := payload.drop nspJsonPos })
      | some commaPos =>
        -- `substr(nsp_json_pos, comma_pos - nsp_json_pos)`: the size_t
        -- subtraction wraps when the comma lies before the namespace, and
        -- substr then clamps to the rest of the string
        let nsp := if nspJsonPos ≤ commaPos then
            (payload.drop nspJsonPos).take (commaPos - nspJsonPos)
          else payload.drop nspJsonPos
        parseAfterNsp jparse payload base nsp (commaPos + 1)
    else
      parseTail jparse payload base ['/'] pos nspJsonPos

/-- `packet::parse(const string& payload_ptr)` on a fresh packet (as
`put_payload` always calls it).  Returns `true` iff the packet awaits binary
attachments; `.error` models a `std::stoul`/`std::stoi` exception escaping
the codec.  Reading `payload_ptr[pos]` at the end of the string yields NUL
(`charAt`), and for a binary sub-type with no `'-'` found, `pos =
string::npos + 1` wraps to `0`. -/
def packetParse (jparse : Str → Option Json) (payload : Str) :
    Except Unit (Bool × RawPacket) :=
  let frame : Int := ((charAt payload 0).toNat : Int) - 48
  if frame = 4 then
    let t : Int := ((charAt payload 1).toNat : Int) - 48
    if t < 0 ∨ t > 6 then .ok (false, parseBase frame t 0)
    else if t = 5 ∨ t = 6 then
      let scorePos := findAnyFrom payload ['-'] 0
      let sub := match scorePos with
        | some sp => (payload.drop 2).take (sp - 2)
        | none => payload.drop 2
      match stoulModel sub with
      | none => .error ()
      | some v =>
        let pos := match scorePos with
          | some sp => sp + 1
          | none => 0
        parseNsp jparse payload (parseBase frame t (v % 2 ^ 32)) pos
    else
      parseNsp jparse payload (parseBase frame t 0) 2
  else
    parseNsp jparse payload (parseBase frame 16 0) 1

/-- `packet::parse_buffer(const string& buf_payload)`: while buffers are
pending, append the (whole) binary payload; when the last one arrives, parse
the stored JSON text (the first buffer) against the remaining binary
attachments and report `false` (complete).  On a JSON parse error the
message stays null; the buffer list is cleared either way. -/
def parseBuffer (jparse : Str → Option Json) (pk : RawPacket) (bufPayload : Str) :
    Bool × RawPacket :=
  if pk.pending > 0 then
    let buffers := pk.buffers ++ [bufPayload]
    let pending := pk.pending - 1
    if pending = 0 then
      let message := match jparse (buffers.headD []) with
        | some j => fromJson buffers.tail j
        | none => pk.message
      (false, { pk with buffers := [], pending := 0, message := message })
    else (true, { pk with buffers := buffers, pending := pending })
  else (false, pk)

/-- `packet_manager::put_payload`: returns the new partial-packet slot and
the delivered packet (if any); `.error` models a parse exception escaping
`put_payload`. -/
def putPayload (jparse : Str → Option Json) (partPk : Option RawPacket)
    (payload : Str) : Except Unit (Option RawPacket × Option RawPacket) :=
  if isTextMessage payload then
    match packetParse jparse payload with
    | .error _ => .error ()
    | .ok (true, pk) => .ok (some pk, none)
    | .ok (false, pk) => .ok (partPk, some pk)
  else if isBinaryMessage payload then
    match partPk with
    | some pk =>
      match parseBuffer jparse pk payload with
      | (true, pk1) => .ok (some pk1, none)
      | (false, pk1) => .ok (none, some pk1)
    | none => .ok (none, none)
  else
    match packetParse jparse payload with
    | .error _ => .error ()
    | .ok (_, pk) => .ok (partPk, some pk)

/-- Iterated `put_payload` over a frame sequence, collecting deliveries. -/
def runPayloads (jparse : Str → Option Json) :
    Option RawPacket → List Str → Except Unit (Option RawPacket × List RawPacket)
  | st, [] => .ok (st, [])
  | st, p :: ps =>
    match putPayload jparse st p with
    | .error _ => .error ()
    | .ok (st1, d) =>
      match runPayloads jparse st1 ps with
      | .error _ => .error ()
      | .ok (st2, ds) => .ok (st2, d.toList ++ ds)

/-! ## `socket::impl::on_message_packet` (`sio_socket.cpp`, lines 466-538) -/

def msgListToList : MsgList → List Message
  | .nil => []
  | .cons hd tl => hd :: msgListToList tl

/-- The observable behaviour of `on_message_packet` on one packet. -/
inductive SocketAct where
  | noop
  | connectedAct
  | closedAct
  /-- dispatch to `on_socketio_event(nsp, msgId, name, args)` -/
  | eventAct (msgId : Int) (name : Str) (args : List Message)
  /-- dispatch to `on_socketio_ack(msgId, list)` -/
  | ackAct (msgId : Int) (msgs : List Message)
  /-- dispatch to `on_socketio_error` -/
  | errorAct (err : Message)
  /-- `ptr->get_flag()` on a null `message::ptr`: undefined behaviour -/
  | nullDeref
  deriving DecidableEq

/-- `socket::impl::on_message_packet(packet const&)` for a socket bound to
namespace `socketNsp`.  In the EVENT and ACK arms the source reads
`p.get_message()->get_flag()` (and, for events, the flag of element 0)
without a null check. -/
def onMessagePacket (socketNsp : Str) (p : RawPacket) : SocketAct :=
  if p.nsp ≠ socketNsp then .noop
  else if p.ptype = 0 then .connectedAct
  else if p.ptype = 1 then .closedAct
  else if p.ptype = 2 ∨ p.ptype = 5 then
    match p.message with
    | .mNone => .nullDeref
    | .mArray .nil => .noop
    | .mArray (.cons .mNone _) => .nullDeref
    | .mArray (.cons (.mStr name) tl) => .eventAct p.packId name (msgListToList tl)
    | .mArray (.cons _ _) => .noop
    | _ => .noop
  else if p.ptype = 3 ∨ p.ptype = 6 then
    match p.message with
    | .mNone => .nullDeref
    | .mArray xs => .ackAct p.packId (msgListToList xs)
    | m => .ackAct p.packId [m]
  else if p.ptype = 4 then .errorAct p.message
  else .noop

/-! ## Auxiliary definitions used by the proofs -/

/-- Invariant of the ack-table model: while the entry is present no callback
has run, and at most one callback has ever run. -/
def ackInv (st : AckTableState) : Prop :=
  (st.ackPresent = true → st.ackCalls = 0 ∧ st.timeoutCalls = 0) ∧
  st.ackCalls + st.timeoutCalls ≤ 1

/-- A black-box JSON parse instance for concrete runs: the text `"["` maps
to a one-element array holding a placeholder for attachment 0. -/
def jp451 : Str → Option Json := fun s =>
  if s = ['['] then
    some (.jarr (.cons (.jobj (.cons "_placeholder".toList (.jbool true)
      (.cons "num".toList (.jint 0) .nil))) .nil))
  else none

/-- The partial packet produced by parsing the text frame `"451-["`. -/
def pkt451 : RawPacket :=
  { frame := 4, ptype := 5, nsp := ['/'], packId := -1, message := .mNone,
    pending := 1, buffers := [['[']] }

/-! # Theorems -/

/-! ### Helper lemmas -/

theorem ackStep_inv (st : AckTableState) (ev : AckEvent) (h : ackInv st) :
    ackInv (ackStep st ev) := by
  obtain ⟨h1, h2⟩ := h
  cases ev <;>
    simp only [ackStep, ackTimeoutFire, ackArrive, ackInv] <;>
    cases hp : st.ackPresent <;> simp_all

theorem ackFold_inv (evs : List AckEvent) (st : AckTableState) (h : ackInv st) :
    ackInv (evs.foldl ackStep st) := by
  induction evs generalizing st with
  | nil => exact h
  | cons ev evs ih => exact ih _ (ackStep_inv st ev h)

theorem ackFold_absent (evs : List AckEvent) (st : AckTableState)
    (h : st.ackPresent = false) :
    (evs.foldl ackStep st).ackPresent = false ∧
    (evs.foldl ackStep st).ackCalls = st.ackCalls ∧
    (evs.foldl ackStep st).timeoutCalls = st.timeoutCalls := by
  induction evs generalizing st with
  | nil => exact ⟨h, rfl, rfl⟩
  | cons ev evs ih =>
    have hstep : (ackStep st ev).ackPresent = false ∧
        (ackStep st ev).ackCalls = st.ackCalls ∧
        (ackStep st ev).timeoutCalls = st.timeoutCalls := by
      cases ev <;> simp [ackStep, ackTimeoutFire, ackArrive, h]
    obtain ⟨ha, hb, hc⟩ := hstep
    obtain ⟨ia, ib, ic⟩ := ih (ackStep st ev) ha
    exact ⟨ia, by rw [List.foldl_cons, ib, hb], by rw [List.foldl_cons, ic, hc]⟩

theorem sendPacket_fold_disconnected {α : Type} (ps : List α) (st : NsSendState α)
    (h : st.connected = false) :
    ps.foldl sendPacket st = ⟨false, st.packetQueue ++ ps, st.wire⟩ := by
  induction ps generalizing st with
  | nil => cases st; simp_all
  | cons p ps ih =>
    rw [List.foldl_cons]
    have hstep : sendPacket st p = { st with packetQueue := st.packetQueue ++ [p] } := by
      simp [sendPacket, h]
    rw [hstep, ih _ (by simp [h])]
    simp

theorem sendPacket_fold_connected {α : Type} (ps : List α) (st : NsSendState α)
    (h : st.connected = true) (hq : st.packetQueue = []) :
    ps.foldl sendPacket st = ⟨true, [], st.wire ++ ps⟩ := by
  induction ps generalizing st with
  | nil => cases st; simp_all
  | cons p ps ih =>
    rw [List.foldl_cons]
    have hstep : sendPacket st p = ⟨true, [], st.wire ++ st.packetQueue ++ [p]⟩ := by
      simp [sendPacket, h]
    rw [hstep, ih _ rfl rfl]
    simp [hq]

theorem nextDelayLoop_min (m : Nat) :
    ∀ (k d : Nat), d ≤ m → nextDelayLoop m k d = min (d * 2 ^ k) m := by
  intro k
  induction k with
  | zero => intro d h; simp [nextDelayLoop]; omega
  | succ k ih =>
    intro d h
    rw [nextDelayLoop]
    have hpow : 2 ≤ 2 ^ (k + 1) := by
      calc 2 = 2 ^ 1 := by norm_num
        _ ≤ 2 ^ (k + 1) := Nat.pow_le_pow_right (by norm_num) (by omega)
    split_ifs with h1 h2
    · -- delay < max and delay > max / 2: jump to max
      have hd : m < d * 2 := by omega
      have : m < d * 2 ^ (k + 1) := by
        calc m < d * 2 := hd
          _ ≤ d * 2 ^ (k + 1) := Nat.mul_le_mul_left d hpow
      omega
    · -- delay < max and delay ≤ max / 2: double and recurse
      have hd2 : d * 2 ≤ m := by omega
      rw [ih (d * 2) hd2]
      have : d * 2 * 2 ^ k = d * 2 ^ (k + 1) := by ring
      rw [this]
    · -- delay = max: the loop condition fails
      have : d = m := by omega
      subst this
      have : d ≤ d * 2 ^ (k + 1) := Nat.le_mul_of_pos_right d (by positivity)
      omega

/-! ### Claim theorems -/

/-- Claim C1: for an emit registered with both an ack callback and a timeout
callback, over any serialized sequence of timer-fire and server-ACK events,
at most one of the two callbacks is invoked and neither is invoked twice;
moreover an ACK arriving anywhere after the timer fired adds no ack-callback
invocation (it is silently discarded), and a timer firing after the ACK was
handled adds no timeout-callback invocation. -/
theorem ack_timeout_mutual_exclusion :
    (∀ evs : List AckEvent,
      (ackRun evs).ackCalls ≤ 1 ∧ (ackRun evs).timeoutCalls ≤ 1 ∧
      (ackRun evs).ackCalls + (ackRun evs).timeoutCalls ≤ 1) ∧
    (∀ evs evs2 : List AckEvent,
      (ackRun (evs ++ AckEvent.timerFire :: evs2)).ackCalls = (ackRun evs).ackCalls) ∧
    (∀ evs evs2 : List AckEvent,
      (ackRun (evs ++ AckEvent.serverAck :: evs2)).timeoutCalls = (ackRun evs).timeoutCalls) := by
  refine ⟨?_, ?_, ?_⟩
  · intro evs
    have h := ackFold_inv evs ackInit (by simp [ackInv, ackInit])
    obtain ⟨-, h2⟩ := h
    unfold ackRun
    exact ⟨by omega, by omega, h2⟩
  · intro evs evs2
    rw [ackRun, List.foldl_append, List.foldl_cons]
    have habs : (ackStep (evs.foldl ackStep ackInit) .timerFire).ackPresent = false ∧
        (ackStep (evs.foldl ackStep ackInit) .timerFire).ackCalls =
          (evs.foldl ackStep ackInit).ackCalls := by
      simp [ackStep, ackTimeoutFire]
    obtain ⟨ha, hc⟩ := habs
    obtain ⟨-, hb, -⟩ := ackFold_absent evs2 _ ha
    rw [hb, hc]; rfl
  · intro evs evs2
    rw [ackRun, List.foldl_append, List.foldl_cons]
    have habs : (ackStep (evs.foldl ackStep ackInit) .serverAck).ackPresent = false ∧
        (ackStep (evs.foldl ackStep ackInit) .serverAck).timeoutCalls =
          (evs.foldl ackStep ackInit).timeoutCalls := by
      simp [ackStep, ackArrive]
    obtain ⟨ha, hc⟩ := habs
    obtain ⟨-, -, hb⟩ := ackFold_absent evs2 _ ha
    rw [hb, hc]; rfl

/-- Claim C5: packets emitted on a namespace before its CONNECT response are
queued (nothing reaches the wire) in FIFO order; the CONNECT response flushes
them to the wire in that order; packets emitted while connected go to the
wire immediately, after the earlier ones. -/
theorem preconnect_queue_fifo (ps1 ps2 : List RawPacket) :
    ((ps1.foldl sendPacket nsInit : NsSendState RawPacket).wire = [] ∧
      (ps1.foldl sendPacket nsInit : NsSendState RawPacket).packetQueue = ps1) ∧
    (onConnectedFlush (ps1.foldl sendPacket nsInit) : NsSendState RawPacket).wire = ps1 ∧
    (ps2.foldl sendPacket (onConnectedFlush (ps1.foldl sendPacket nsInit)) :
        NsSendState RawPacket).wire = ps1 ++ ps2 := by
  have h1 := sendPacket_fold_disconnected ps1 (nsInit : NsSendState RawPacket) rfl
  rw [h1]
  have h2 : onConnectedFlush (⟨false, [] ++ ps1, []⟩ : NsSendState RawPacket) =
      ⟨true, [], ps1⟩ := by simp [onConnectedFlush, nsInit]
  simp only [nsInit] at h1 ⊢
  rw [h2]
  have h3 := sendPacket_fold_connected ps2 (⟨true, [], ps1⟩ : NsSendState RawPacket) rfl rfl
  rw [h3]
  simp

/-- Claim C6: for every reconnect attempt count `k`, with configured delays
`d ≤ m` (the invariant of the client's reconnect configuration), the
scheduled delay equals `d · 2^k` saturated at `m`; in particular with
`d = 1000, m = 5000` the successive delays are 1000, 2000, 4000, 5000,
5000. -/
theorem next_delay_exponential_saturation :
    (∀ d m k : Nat, d ≤ m → next_delay d m k = min (d * 2 ^ k) m) ∧
    (List.range 5).map (next_delay 1000 5000) = [1000, 2000, 4000, 5000, 5000] := by
  constructor
  · intro d m k h
    exact nextDelayLoop_min m k d h
  · decide

theorem next_delay_exponential_saturation_witness :
    (1000 : Nat) ≤ 5000 ∧ next_delay 1000 5000 3 = min (1000 * 2 ^ 3) 5000 :=
  ⟨by decide, next_delay_exponential_saturation.1 1000 5000 3 (by decide)⟩

/-- Claim C9: the auto-ack wrapper stores the event's ack payload exactly
when the incoming packet carried an ack id (`msgId ≥ 0`) and the handler
left the ack list non-empty; the bool-returning handler form is adapted by
pushing exactly one boolean — the handler's return value, `false` when it
threw — so that, composed with the wrapper, the payload is one boolean
whenever an ack id was carried. -/
theorem auto_ack_wrapper_spec :
    (∀ (h : Message → List Message) (nsp name : Str) (msgs : List Message) (msgId : Int),
      (onWithAckWrapper h (createEvent nsp name msgs msgId)).ackMessage =
        if 0 ≤ msgId ∧ h (msgs.headD .mNone) ≠ [] then h (msgs.headD .mNone) else []) ∧
    (∀ (hb : Message → Except Unit Bool) (msg : Message),
      ∃ b : Bool, simpleHandlerAdapter hb msg = [Message.mBool b] ∧
        b = (match hb msg with | .ok v => v | .error _ => false)) ∧
    (∀ (hb : Message → Except Unit Bool) (nsp name : Str) (msgs : List Message) (msgId : Int),
      (onWithAckWrapper (simpleHandlerAdapter hb) (createEvent nsp name msgs msgId)).ackMessage =
        if 0 ≤ msgId then
          [Message.mBool (match hb (msgs.headD .mNone) with | .ok v => v | .error _ => false)]
        else []) := by
  refine ⟨?_, ?_, ?_⟩
  · intro h nsp name msgs msgId
    simp only [onWithAckWrapper, putAckMessage, createEvent, eventGetMessage]
    by_cases hid : 0 ≤ msgId <;> simp [hid, List.length_pos] <;> split_ifs <;> simp_all
  · intro hb msg
    exact ⟨_, rfl, rfl⟩
  · intro hb nsp name msgs msgId
    simp only [onWithAckWrapper, putAckMessage, createEvent, simpleHandlerAdapter,
      eventGetMessage]
    by_cases hid : 0 ≤ msgId <;> simp [hid]

/-- Claim C10: `client_impl::socket` normalizes the namespace — `""` becomes
`"/"`, a name not beginning with `'/'` gets `'/'` prepended, a name
beginning with `'/'` is used as-is — a socket is created (under a fresh
handle) only when the normalized name is absent, and a second call whose
argument normalizes to the same name returns the same handle without
changing the map. -/
theorem socket_lookup_normalize_memoize :
    (normalizeNsp [] = ['/']) ∧
    (∀ (c : Char) (cs : Str), c ≠ '/' → normalizeNsp (c :: cs) = '/' :: c :: cs) ∧
    (∀ cs : Str, normalizeNsp ('/' :: cs) = '/' :: cs) ∧
    (∀ (st : SocketMapState) (a : Str), st.sockets.lookup (normalizeNsp a) = none →
      (clientSocket st a).2 = st.nextId ∧
      (clientSocket st a).1.sockets = (normalizeNsp a, st.nextId) :: st.sockets) ∧
    (∀ (st : SocketMapState) (a b : Str), normalizeNsp a = normalizeNsp b →
      clientSocket (clientSocket st a).1 b =
        ((clientSocket st a).1, (clientSocket st a).2)) := by
  refine ⟨rfl, ?_, ?_, ?_, ?_⟩
  · intro c cs hc; simp [normalizeNsp, hc]
  · intro cs; simp [normalizeNsp]
  · intro st a h; simp [clientSocket, h]
  · intro st a b hab
    rcases hl : st.sockets.lookup (normalizeNsp a) with - | v <;>
      simp [clientSocket, ← hab, hl, List.lookup]

theorem socket_lookup_normalize_memoize_witness :
    clientSocket (clientSocket ⟨[], 0⟩ "chat".toList).1 "/chat".toList =
      ((clientSocket ⟨[], 0⟩ "chat".toList).1, (clientSocket ⟨[], 0⟩ "chat".toList).2) :=
  socket_lookup_normalize_memoize.2.2.2.2 ⟨[], 0⟩ "chat".toList "/chat".toList (by decide)

/-- Claim C7: across the two transport-level events, the reconnect attempt
counter is reset exactly by a successful handshake: `on_handshake` ends with
a zero counter iff it succeeded (on the failure path the state, counter
included, is untouched), and `on_open` (transport open) never changes the
counter. -/
theorem reconn_counter_reset_iff_handshake :
    (∀ (msg : Message) (st st2 : ClientState) (act : HsAct),
      on_handshake msg st = (st2, act) →
      (act = HsAct.ok → st2.reconnMade = 0) ∧
      (∀ code reason, act = HsAct.closeTransport code reason → st2 = st)) ∧
    (∀ st : ClientState, (on_open st).1.reconnMade = st.reconnMade) := by
  constructor
  · intro msg st st2 act h
    simp only [on_handshake] at h
    cases msg <;>
      try (cases h; exact ⟨fun hok => by simp_all, fun c r hh => by simp_all⟩)
    repeat' split at h
    all_goals cases h
    all_goals exact ⟨fun hok => by simp_all, fun c r hh => by simp_all⟩
  · intro st
    unfold on_open
    split_ifs <;> rfl

theorem reconn_counter_reset_iff_handshake_witness :
    (on_handshake (.mObject (.cons "sid".toList (.mStr ['x']) .nil))
        ⟨[], 0, 0, 7, .opening⟩).1.reconnMade = 0 :=
  (reconn_counter_reset_iff_handshake.1
    (.mObject (.cons "sid".toList (.mStr ['x']) .nil)) ⟨[], 0, 0, 7, .opening⟩
    _ _ rfl).1 rfl


theorem on_handshake_success_eq (st : ClientState) (kvs : MsgMap) (sidv : Message)
    (hsid : msgMapFind kvs "sid".toList = some sidv) (hnn : sidv ≠ .mNone)
    (hpiN : msgMapFind kvs "pingInterval".toList ≠ some .mNone)
    (hptN : msgMapFind kvs "pingTimeout".toList ≠ some .mNone) :
    on_handshake (.mObject kvs) st =
      ({ st with sid := msgGetString sidv,
                 pingInterval := (match msgMapFind kvs "pingInterval".toList with
                                  | some (.mInt i) => toUInt32n i
                                  | _ => 25000),
                 pingTimeout := (match msgMapFind kvs "pingTimeout".toList with
                                 | some (.mInt i) => toUInt32n i
                                 | _ => 60000),
                 reconnMade := 0 }, .ok) := by
  simp only [on_handshake, hsid]

/-- Claim C8: on the handshake OPEN packet the engine extracts `sid` and
substitutes `pingInterval = 25000` / `pingTimeout = 60000` exactly when those
fields are missing or not integer-typed (keeping the transmitted value, cast
to `unsigned`, otherwise); a non-object payload or one lacking `sid` closes
the transport with close code "policy violation" and reason
"Handshake error". -/
theorem handshake_extract_defaults_and_failure :
    (∀ (st : ClientState) (msg : Message), (∀ kvs, msg ≠ .mObject kvs) →
      on_handshake msg st =
        (st, .closeTransport .policyViolation "Handshake error".toList)) ∧
    (∀ (st : ClientState) (kvs : MsgMap), msgMapFind kvs "sid".toList = none →
      on_handshake (.mObject kvs) st =
        (st, .closeTransport .policyViolation "Handshake error".toList)) ∧
    (∀ (st : ClientState) (kvs : MsgMap) (sidv : Message),
      msgMapFind kvs "sid".toList = some sidv → sidv ≠ .mNone →
      msgMapFind kvs "pingInterval".toList ≠ some .mNone →
      msgMapFind kvs "pingTimeout".toList ≠ some .mNone →
      ((on_handshake (.mObject kvs) st).2 = .ok ∧
       (on_handshake (.mObject kvs) st).1.sid = msgGetString sidv) ∧
      (msgMapFind kvs "pingInterval".toList = none →
        (on_handshake (.mObject kvs) st).1.pingInterval = 25000) ∧
      (∀ v, msgMapFind kvs "pingInterval".toList = some v → (∀ i, v ≠ .mInt i) →
        (on_handshake (.mObject kvs) st).1.pingInterval = 25000) ∧
      (∀ i, msgMapFind kvs "pingInterval".toList = some (.mInt i) →
        (on_handshake (.mObject kvs) st).1.pingInterval = toUInt32n i) ∧
      (msgMapFind kvs "pingTimeout".toList = none →
        (on_handshake (.mObject kvs) st).1.pingTimeout = 60000) ∧
      (∀ v, msgMapFind kvs "pingTimeout".toList = some v → (∀ i, v ≠ .mInt i) →
        (on_handshake (.mObject kvs) st).1.pingTimeout = 60000) ∧
      (∀ i, msgMapFind kvs "pingTimeout".toList = some (.mInt i) →
        (on_handshake (.mObject kvs) st).1.pingTimeout = toUInt32n i)) := by
  refine ⟨?_, ?_, ?_⟩
  · intro st msg hno
    cases msg <;> first | rfl | exact absurd rfl (hno _)
  · intro st kvs h
    simp only [on_handshake, h]
  · intro st kvs sidv hsid hnn hpiN hptN
    rw [on_handshake_success_eq st kvs sidv hsid hnn hpiN hptN]
    refine ⟨⟨rfl, rfl⟩, ?_, ?_, ?_, ?_, ?_, ?_⟩
    · intro h0; rw [h0]
    · intro v hv hni; rw [hv]; cases v <;> simp_all
    · intro i hv; rw [hv]
    · intro h0; rw [h0]
    · intro v hv hni; rw [hv]; cases v <;> simp_all
    · intro i hv; rw [hv]

theorem handshake_extract_defaults_and_failure_witness :
    (on_handshake (.mObject (.cons "sid".toList (.mStr ['x']) .nil))
        ⟨[], 0, 0, 7, .opening⟩).1.pingInterval = 25000 ∧
    (on_handshake (.mObject (.cons "sid".toList (.mStr ['x']) .nil))
        ⟨[], 0, 0, 7, .opening⟩).2 = .ok :=
  let r := handshake_extract_defaults_and_failure.2.2 ⟨[], 0, 0, 7, .opening⟩
    (.cons "sid".toList (.mStr ['x']) .nil) (.mStr ['x'])
    rfl (by decide) (by decide) (by decide)
  ⟨r.2.1 rfl, r.1.1⟩

/-- Claim C2: for emit-constructed EVENT/ACK packets whose message
serialization collects binary buffers, encoding upgrades the sub-type
(`EVENT → BINARY_EVENT`, `ACK → BINARY_ACK`), the text payload carries the
attachment count and `'-'` right after the frame and type digits, and the
emitted frames are the text frame first, then the collected buffers in
traversal order; with no buffers the sub-type is unchanged and only the
text frame is emitted. -/
theorem encode_binary_upgrade (nsp : Str) (m : Message) (packId : Int) (isAck : Bool)
    (js : Str) (bufs : List Str)
    (hser : acceptMessage m [] [] = some (js, bufs)) :
    (bufs ≠ [] →
      ∃ text p1,
        managerEncode (packetOfEmit nsp m packId isAck) =
          some ((false, text) :: bufs.map (fun b => (true, b)), p1) ∧
        p1.ptype = (if isAck then 6 else 5) ∧
        ∃ rest, text = '4' :: (if isAck then '6' else '5') ::
          (natChars bufs.length ++ '-' :: rest)) ∧
    (bufs = [] →
      ∃ text p1,
        managerEncode (packetOfEmit nsp m packId isAck) = some ([(false, text)], p1) ∧
        p1.ptype = (if isAck then 3 else 2) ∧
        ∃ rest, text = '4' :: (if isAck then '3' else '2') :: rest) := by
  have hm : m ≠ .mNone := by
    intro h; subst h; simp [acceptMessage] at hser
  have hland2 : Int.land (Int.lor 2 16) (-17) = 2 := by
    have h1 : Nat.ldiff 18 16 = 2 := by simp [Nat.ldiff, Nat.bitwise]
    have h2 : Int.lor 2 16 = 18 := by decide
    rw [h2]
    show Int.land (Int.ofNat 18) (Int.negSucc 16) = 2
    simp [Int.land, h1]
  have hland3 : Int.land (Int.lor 3 16) (-17) = 3 := by
    have h1 : Nat.ldiff 19 16 = 3 := by simp [Nat.ldiff, Nat.bitwise]
    have h2 : Int.lor 3 16 = 19 := by decide
    rw [h2]
    show Int.land (Int.ofNat 19) (Int.negSucc 16) = 3
    simp [Int.land, h1]
  have hchar : Char.ofNat ((4 + 48 : Int).toNat % 256) = '4' := by decide
  have hc : Char.ofNat 52 = '4' := by decide
  have h2c : intChars 2 = ['2'] := by decide
  have h3c : intChars 3 = ['3'] := by decide
  have h5c : intChars 5 = ['5'] := by decide
  have h6c : intChars 6 = ['6'] := by decide
  constructor
  · intro hb
    have hlen : bufs.length > 0 := List.length_pos.mpr hb
    cases isAck
    · simp [managerEncode, packetAccept, packetOfEmit, typeUndetermined, hser, hm,
        hland2, hland3, hchar, hlen]
      exact ⟨_, _, ⟨rfl, rfl⟩, rfl,
        (if ¬nsp = [] ∧ ¬nsp = ['/'] then nsp ++ [','] else []) ++
          ((if 0 ≤ packId then intChars packId else []) ++ js),
        by rw [hc, h5c]; rfl⟩
    · simp [managerEncode, packetAccept, packetOfEmit, typeUndetermined, hser, hm,
        hland2, hland3, hchar, hlen]
      exact ⟨_, _, ⟨rfl, rfl⟩, rfl,
        (if ¬nsp = [] ∧ ¬nsp = ['/'] then nsp ++ [','] else []) ++
          ((if 0 ≤ packId then intChars packId else []) ++ js),
        by rw [hc, h6c]; rfl⟩
  · intro hb
    subst hb
    cases isAck
    · simp [managerEncode, packetAccept, packetOfEmit, typeUndetermined, hser, hm,
        hland2, hland3, hchar]
      exact ⟨_, _, ⟨rfl, rfl⟩, rfl,
        (if ¬nsp = [] ∧ ¬nsp = ['/'] then nsp ++ [','] else []) ++
          ((if 0 ≤ packId then intChars packId else []) ++ js),
        by rw [hc, h2c]; rfl⟩
    · simp [managerEncode, packetAccept, packetOfEmit, typeUndetermined, hser, hm,
        hland2, hland3, hchar]
      exact ⟨_, _, ⟨rfl, rfl⟩, rfl,
        (if ¬nsp = [] ∧ ¬nsp = ['/'] then nsp ++ [','] else []) ++
          ((if 0 ≤ packId then intChars packId else []) ++ js),
        by rw [hc, h3c]; rfl⟩

theorem encode_binary_upgrade_witness :
    ∃ text p1,
      managerEncode (packetOfEmit ['/'] (.mArray (.cons (.mStr ['h', 'i'])
          (.cons (.mBinary ['\x01', '\x02']) .nil))) (-1) false) =
        some ((false, text) :: ([['\x01', '\x02']] : List Str).map (fun b => (true, b)), p1) ∧
      p1.ptype = (if false then 6 else 5) ∧
      ∃ rest, text = '4' :: (if false then '6' else '5') ::
        (natChars ([['\x01', '\x02']] : List Str).length ++ '-' :: rest) :=
  (encode_binary_upgrade ['/']
    (.mArray (.cons (.mStr ['h', 'i']) (.cons (.mBinary ['\x01', '\x02']) .nil)))
    (-1) false
    ('[' :: '"' :: 'h' :: 'i' :: '"' :: ',' :: (placeholderChars 0 ++ [']']))
    [['\x01', '\x02']] (by decide)).1 (by decide)

/-- Claim C3 (refuted by the code): the malformed EVENT body `"42["` is
delivered, as the spec says, as a packet with a null message — but the
socket's `on_message_packet` then executes `ptr->get_flag()` on that null
`message::ptr` (undefined behaviour, a crash in practice) instead of
treating the packet as a no-op. -/
theorem malformed_event_body_null_deref :
    putPayload (fun _ => none) none ("42[".toList) =
      .ok (none, some { frame := 4, ptype := 2, nsp := ['/'], packId := -1,
                        message := .mNone, pending := 0, buffers := [] }) ∧
    onMessagePacket ['/'] { frame := 4, ptype := 2, nsp := ['/'], packId := -1,
                            message := .mNone, pending := 0, buffers := [] } =
      .nullDeref :=
  ⟨rfl, rfl⟩

theorem parseTail_true_shape (jparse : Str → Option Json) (payload : Str)
    (base : RawPacket) (nsp : Str) (pos jsonPos : Nat) (pk : RawPacket)
    (h : parseTail jparse payload base nsp pos jsonPos = .ok (true, pk)) :
    pk.buffers = [payload.drop jsonPos] ∧ pk.message = base.message ∧
    pk.pending = base.pending := by
  unfold parseTail at h
  cases hpid : parsePackId payload pos jsonPos <;> rw [hpid] at h
  · simp at h
  · repeat' split at h
    all_goals first
      | (simp_all; done)
      | (injection h with h1; injection h1 with hA hB; subst hB;
         exact ⟨rfl, rfl, rfl⟩)

theorem parseAfterNsp_true_shape (jparse : Str → Option Json) (payload : Str)
    (base : RawPacket) (nsp : Str) (pos2 : Nat) (pk : RawPacket)
    (h : parseAfterNsp jparse payload base nsp pos2 = .ok (true, pk)) :
    (∃ j, pk.buffers = [payload.drop j]) ∧ pk.message = base.message ∧
    pk.pending = base.pending := by
  unfold parseAfterNsp at h
  split at h
  · simp_all
  · obtain ⟨h1, h2, h3⟩ := parseTail_true_shape _ _ _ _ _ _ _ h
    exact ⟨⟨_, h1⟩, h2, h3⟩

theorem parseNsp_true_shape (jparse : Str → Option Json) (payload : Str)
    (base : RawPacket) (pos : Nat) (pk : RawPacket)
    (h : parseNsp jparse payload base pos = .ok (true, pk)) :
    (∃ j, pk.buffers = [payload.drop j]) ∧ pk.message = base.message ∧
    pk.pending = base.pending := by
  unfold parseNsp at h
  repeat' split at h
  all_goals first
    | (simp_all; done)
    | exact parseAfterNsp_true_shape _ _ _ _ _ _ h
    | (obtain ⟨h1, h2, h3⟩ := parseTail_true_shape _ _ _ _ _ _ _ h
       exact ⟨⟨_, h1⟩, h2, h3⟩)

theorem packetParse_true_shape (jparse : Str → Option Json) (text : Str)
    (pk : RawPacket) (h : packetParse jparse text = .ok (true, pk)) :
    (∃ s, pk.buffers = [s]) ∧ pk.message = .mNone := by
  simp only [packetParse] at h
  repeat' split at h
  all_goals first
    | (simp_all; done)
    | (obtain ⟨⟨j, h1⟩, h2, h3⟩ := parseNsp_true_shape _ _ _ _ _ h
       exact ⟨⟨_, h1⟩, h2.trans rfl⟩)

theorem isTextMessage_of_binary (b : Str) (hb : isBinaryMessage b = true) :
    isTextMessage b = false := by
  unfold isBinaryMessage at hb
  unfold isTextMessage
  rcases b with - | ⟨c, cs⟩
  · simp at hb
  · simp only [Bool.and_eq_true, decide_eq_true_eq] at hb
    obtain ⟨-, hc⟩ := hb
    simp [charAt] at hc ⊢
    rw [hc]
    decide

theorem putPayload_binary_step (jparse : Str → Option Json) (pk : RawPacket) (b : Str)
    (hb : isBinaryMessage b = true) (hp : 0 < pk.pending) :
    putPayload jparse (some pk) b =
      (if pk.pending = 1 then
        .ok (none, some { pk with
          buffers := [],
          pending := 0,
          message := match jparse ((pk.buffers ++ [b]).headD []) with
                     | some j => fromJson (pk.buffers ++ [b]).tail j
                     | none => pk.message })
      else
        .ok (some { pk with
          buffers := pk.buffers ++ [b],
          pending := pk.pending - 1 }, none)) := by
  have ht := isTextMessage_of_binary b hb
  unfold putPayload
  rw [ht, hb]
  simp only [Bool.false_eq_true, if_false, if_true]
  unfold parseBuffer
  by_cases h1 : pk.pending = 1
  · simp [h1]
  · have h0 : ¬(pk.pending - 1 = 0) := by omega
    simp [h1, hp, h0]

theorem runPayloads_feed (jparse : Str → Option Json) :
    ∀ (bins : List Str) (pk : RawPacket),
      (∀ b ∈ bins, isBinaryMessage b = true) → 0 < pk.pending →
      (bins.length < pk.pending →
        runPayloads jparse (some pk) bins =
          .ok (some { pk with
            buffers := pk.buffers ++ bins,
            pending := pk.pending - bins.length }, [])) ∧
      (bins.length = pk.pending →
        runPayloads jparse (some pk) bins =
          .ok (none, [{ pk with
            buffers := [],
            pending := 0,
            message := match jparse ((pk.buffers ++ bins).headD []) with
                       | some j => fromJson (pk.buffers ++ bins).tail j
                       | none => pk.message }])) := by
  intro bins
  induction bins with
  | nil =>
    intro pk hb hp
    constructor
    · intro hlt
      simp [runPayloads]
    · intro heq
      simp at heq
      omega
  | cons b bins ih =>
    intro pk hb hp
    have hbb : isBinaryMessage b = true := hb b (by simp)
    have hbs : ∀ x ∈ bins, isBinaryMessage x = true := fun x hx => hb x (by simp [hx])
    have hstep := putPayload_binary_step jparse pk b hbb hp
    constructor
    · intro hlt
      have hne : ¬(pk.pending = 1) := by simp at hlt; omega
      rw [runPayloads, hstep, if_neg hne]
      dsimp only
      have hp1 : 0 < pk.pending - 1 := by omega
      have hlt1 : bins.length < pk.pending - 1 := by simp at hlt; omega
      obtain ⟨ih1, -⟩ := ih { pk with
        buffers := pk.buffers ++ [b], pending := pk.pending - 1 } hbs hp1
      rw [ih1 hlt1]
      have hpend : pk.pending - 1 - bins.length = pk.pending - (bins.length + 1) := by
        omega
      simp [hpend, List.append_assoc]
    · intro heq
      by_cases h1 : pk.pending = 1
      · have hbnil : bins = [] := by
          simp at heq
          have : bins.length = 0 := by omega
          exact List.length_eq_zero.mp this
        subst hbnil
        rw [runPayloads, hstep, if_pos h1]
        dsimp only
        simp [runPayloads]
      · rw [runPayloads, hstep, if_neg h1]
        dsimp only
        have hp1 : 0 < pk.pending - 1 := by omega
        have heq1 : bins.length = pk.pending - 1 := by simp at heq; omega
        obtain ⟨-, ih2⟩ := ih { pk with
          buffers := pk.buffers ++ [b], pending := pk.pending - 1 } hbs hp1
        rw [ih2 heq1]
        simp [List.append_assoc]

/-- Counterexample to claim C4 as stated: the placeholder index `num =
4294967296 = 2³²` is `≥ k = 1`, so the claim requires a null message in its
place, but the code's `int num = int(int64_t(num_elem))` truncates it to `0`
and substitutes attachment 0 instead. -/
theorem placeholder_num_wrap_counterexample :
    (4294967296 : Int) ≥ (([['b']] : List Str).length : Int) ∧
    fromJson [['b']] (.jobj (.cons "_placeholder".toList (.jbool true)
        (.cons "num".toList (.jint 4294967296) .nil))) = .mBinary ['b'] :=
  ⟨by decide, by decide⟩

/-- Claim C4 (amended: the placeholder's `num` is truncated to a 32-bit
signed int before the range check, as the code casts `int64 → int`): a text
frame parsed as awaiting `k > 0` binary attachments is held while fewer than
`k` binary frames arrived, delivered exactly on the `k`-th, with its message
decoded from the stored JSON text against the received buffers in arrival
order; a two-field placeholder object with truncated index in `[0, k)` is
replaced by that attachment and any other index yields a null message in
its place. -/
theorem binary_decode_delivery :
    (∀ (jparse : Str → Option Json) (text : Str) (pk : RawPacket),
      packetParse jparse text = .ok (true, pk) → 0 < pk.pending →
      ∀ bins : List Str, (∀ b ∈ bins, isBinaryMessage b = true) →
        (bins.length < pk.pending →
          ∃ pk1, runPayloads jparse (some pk) bins = .ok (some pk1, [])) ∧
        (bins.length = pk.pending →
          ∃ pkd, runPayloads jparse (some pk) bins = .ok (none, [pkd]) ∧
            pkd.pending = 0 ∧
            pkd.message = (match jparse (pk.buffers.headD []) with
                           | some j => fromJson bins j
                           | none => Message.mNone))) ∧
    (∀ (i : Int) (bufs : List Str),
      fromJson bufs (.jobj (.cons "_placeholder".toList (.jbool true)
          (.cons "num".toList (.jint i) .nil))) =
        (if 0 ≤ toInt32 i ∧ toInt32 i < (bufs.length : Int)
         then .mBinary (bufs.getD (toInt32 i).toNat [])
         else .mNone)) := by
  constructor
  · intro jparse text pk hparse hp bins hbins
    obtain ⟨⟨s, hbuf⟩, hmsg⟩ := packetParse_true_shape jparse text pk hparse
    obtain ⟨f1, f2⟩ := runPayloads_feed jparse bins pk hbins hp
    constructor
    · intro hlt
      exact ⟨_, f1 hlt⟩
    · intro heq
      refine ⟨_, f2 heq, rfl, ?_⟩
      simp [hbuf, hmsg]
  · intro i bufs
    simp [fromJson, jfLookup]

theorem binary_decode_delivery_witness :
    ∃ pkd, runPayloads jp451 (some pkt451) [['\x04', 'a', 'b']] = .ok (none, [pkd]) ∧
      pkd.pending = 0 ∧
      pkd.message = (match jp451 (pkt451.buffers.headD []) with
                     | some j => fromJson [['\x04', 'a', 'b']] j
                     | none => Message.mNone) :=
  (binary_decode_delivery.1 jp451 "451-[".toList pkt451 (by rfl) (by decide)
    [['\x04', 'a', 'b']] (by decide)).2 (by decide)
